import Mathlib

/-!
Verification of the ipwatch IP-resolution subsystem.

The Python sources `ipwatch.py` and `ipgetter.py` are shallowly embedded:
pure functions become Lean functions over `String` / `List Char`; network and
socket effects are modelled by oracle arguments; Python exceptions become
`Except` results; JSON documents become an inductive `JValue`; `float`
timestamps become exact rationals `ℚ`.
-/

namespace Ipwatch

/-! ## Character-class helpers

Python's `\d` (on `str` patterns) accepts any Unicode decimal digit; the
blacklist and address material in this program is ASCII, so throughout the
embedding `\d` and `[0-9]` are modelled as the ASCII code-point range 48–57.
Likewise `[0-5]`, `[0-4]`, `[01]` are modelled by their code-point ranges. -/

/-- The regex class `[0-9]` (and `\d`), as ASCII code points 48–57. -/
def isDigitC (c : Char) : Bool := 48 ≤ c.toNat && c.toNat ≤ 57

/-! ## `isipaddr` (ipwatch.py lines 66–69)

Python source:
```
def isipaddr(ipstr):
    pattern = re.compile(r"^\d{1,3}\.\d{1,3}\.\d{1,3}\.\d{1,3}$")
    return pattern.match(ipstr)
```
`re.match` anchors at the start; the trailing `$` matches at the end of the
string or just before a single trailing newline.  The greedy `\d{1,3}` with
backtracking is equivalent to taking the maximal digit run and requiring its
length to be 1–3: if the run is longer, every shorter take leaves a digit as
the next character, which fails `\.` and `$` alike; if the run has length
1–3, only the full take can be followed by `\.` or `$`.  So the regex is
compiled to the maximal-munch recogniser below.  The returned match object is
truthy iff a match exists, so the embedding returns `Bool`. -/

/-- One `\d{1,3}` group followed by `n` further `\.\d{1,3}` groups and the
final `$` anchor (which accepts the end of input or a sole final newline). -/
def matchOctets : Nat → List Char → Bool
  | 0, s =>
    let ds := s.takeWhile isDigitC
    let rest := s.dropWhile isDigitC
    decide (1 ≤ ds.length) && decide (ds.length ≤ 3) &&
      (rest.isEmpty || rest == ['\n'])
  | k + 1, s =>
    let ds := s.takeWhile isDigitC
    let rest := s.dropWhile isDigitC
    decide (1 ≤ ds.length) && decide (ds.length ≤ 3) &&
      (match rest with
       | '.' :: r => matchOctets k r
       | _ => false)

/-- `isipaddr` from ipwatch.py: truthiness of
`re.match(r"^\d{1,3}\.\d{1,3}\.\d{1,3}\.\d{1,3}$", ipstr)`. -/
def isipaddr (ipstr : String) : Bool := matchOctets 3 ipstr.data

/-- Spec-side shape predicate, from the spec's words: a group of one to three
digits. -/
def DigitRun (l : List Char) : Prop :=
  l ≠ [] ∧ l.length ≤ 3 ∧ ∀ c ∈ l, isDigitC c = true

/-- Spec-side shape predicate, from the spec's words: "four groups of one to
three digits separated by dots" making up the whole string. -/
def QuadShape (s : List Char) : Prop :=
  ∃ a b c d, DigitRun a ∧ DigitRun b ∧ DigitRun c ∧ DigitRun d ∧
    s = a ++ '.' :: (b ++ '.' :: (c ++ '.' :: d))

/-- Declarative reading of `matchOctets`: `n+1` digit runs separated by dots,
ending at the end of input or before a sole trailing newline. -/
def OctetsShape : Nat → List Char → Prop
  | 0, s => ∃ a rest, DigitRun a ∧ (rest = [] ∨ rest = ['\n']) ∧ s = a ++ rest
  | k + 1, s => ∃ a r, DigitRun a ∧ s = a ++ '.' :: r ∧ OctetsShape k r

theorem takeWhile_of_append {p : Char → Bool} :
    ∀ (a rest : List Char), (∀ c ∈ a, p c = true) →
      (rest = [] ∨ p (rest.headI) = false ∧ rest ≠ []) →
      (a ++ rest).takeWhile p = a ∧ (a ++ rest).dropWhile p = rest := by
  intro a
  induction a with
  | nil =>
    intro rest _ hrest
    rcases hrest with h | ⟨h1, h2⟩
    · subst h; exact ⟨rfl, rfl⟩
    · cases rest with
      | nil => exact absurd rfl h2
      | cons r rs =>
        simp only [List.headI] at h1
        constructor
        · simp [List.takeWhile, h1]
        · simp [List.dropWhile, h1]
  | cons x xs ih =>
    intro rest hall hrest
    have hx : p x = true := hall x (List.mem_cons_self x xs)
    have hxs : ∀ c ∈ xs, p c = true := fun c hc => hall c (List.mem_cons_of_mem x hc)
    obtain ⟨h1, h2⟩ := ih rest hxs hrest
    constructor
    · simp [List.takeWhile, hx, h1]
    · simp [List.dropWhile, hx, h2]

theorem digitRun_takeWhile {s : List Char} (h1 : 1 ≤ (s.takeWhile isDigitC).length)
    (h3 : (s.takeWhile isDigitC).length ≤ 3) : DigitRun (s.takeWhile isDigitC) := by
  refine ⟨?_, h3, ?_⟩
  · intro hnil
    rw [hnil] at h1
    simp at h1
  · intro c hc
    exact List.mem_takeWhile_imp hc

theorem matchOctets_iff : ∀ (k : Nat) (s : List Char),
    matchOctets k s = true ↔ OctetsShape k s := by
  intro k
  induction k with
  | zero =>
    intro s
    constructor
    · intro h
      simp only [matchOctets, Bool.and_eq_true, decide_eq_true_eq, Bool.or_eq_true,
        List.isEmpty_iff, beq_iff_eq] at h
      obtain ⟨⟨h1, h3⟩, hrest⟩ := h
      refine ⟨s.takeWhile isDigitC, s.dropWhile isDigitC, digitRun_takeWhile h1 h3, ?_, ?_⟩
      · rcases hrest with h | h
        · exact Or.inl h
        · exact Or.inr h
      · exact (List.takeWhile_append_dropWhile isDigitC s).symm
    · rintro ⟨a, rest, ⟨hne, hlen, hall⟩, hrest, rfl⟩
      have hsplit : (a ++ rest).takeWhile isDigitC = a ∧ (a ++ rest).dropWhile isDigitC = rest := by
        apply takeWhile_of_append a rest hall
        rcases hrest with h | h
        · exact Or.inl h
        · subst h
          exact Or.inr ⟨by decide, by simp⟩
      simp only [matchOctets, hsplit.1, hsplit.2, Bool.and_eq_true, decide_eq_true_eq,
        Bool.or_eq_true, List.isEmpty_iff, beq_iff_eq]
      refine ⟨⟨?_, hlen⟩, ?_⟩
      · cases a with
        | nil => exact absurd rfl hne
        | cons x xs => simp
      · rcases hrest with h | h
        · exact Or.inl h
        · exact Or.inr h
  | succ k ih =>
    intro s
    constructor
    · intro h
      simp only [matchOctets, Bool.and_eq_true, decide_eq_true_eq] at h
      obtain ⟨⟨h1, h3⟩, hrest⟩ := h
      split at hrest
      · rename_i r heq
        refine ⟨s.takeWhile isDigitC, r, digitRun_takeWhile h1 h3, ?_, (ih r).mp hrest⟩
        conv_lhs => rw [← List.takeWhile_append_dropWhile (p := isDigitC) (l := s)]
        rw [heq]
      · exact absurd hrest (by simp)
    · rintro ⟨a, r, ⟨hne, hlen, hall⟩, rfl, hrec⟩
      have hdot : isDigitC '.' = false := by decide
      have hsplit : (a ++ '.' :: r).takeWhile isDigitC = a ∧
          (a ++ '.' :: r).dropWhile isDigitC = '.' :: r := by
        apply takeWhile_of_append a ('.' :: r) hall
        exact Or.inr ⟨by simpa [List.headI] using hdot, by simp⟩
      simp only [matchOctets, hsplit.1, hsplit.2, Bool.and_eq_true, decide_eq_true_eq]
      refine ⟨⟨?_, hlen⟩, (ih r).mpr hrec⟩
      cases a with
      | nil => exact absurd rfl hne
      | cons x xs => simp

theorem octetsShape3_iff (s : List Char) :
    OctetsShape 3 s ↔ QuadShape s ∨ ∃ t, s = t ++ ['\n'] ∧ QuadShape t := by
  constructor
  · rintro ⟨a, r1, ha, rfl, b, r2, hb, rfl, c, r3, hc, rfl, d, rest, hd, hrest, rfl⟩
    rcases hrest with rfl | rfl
    · left
      exact ⟨a, b, c, d, ha, hb, hc, hd, by simp⟩
    · right
      refine ⟨a ++ '.' :: (b ++ '.' :: (c ++ '.' :: d)), ?_, a, b, c, d, ha, hb, hc, hd, rfl⟩
      simp
  · rintro (⟨a, b, c, d, ha, hb, hc, hd, rfl⟩ | ⟨t, rfl, a, b, c, d, ha, hb, hc, hd, rfl⟩)
    · exact ⟨a, b ++ '.' :: (c ++ '.' :: d), ha, rfl,
        b, c ++ '.' :: d, hb, rfl,
        c, d, hc, rfl,
        d, [], hd, Or.inl rfl, by simp⟩
    · exact ⟨a, (b ++ '.' :: (c ++ '.' :: d)) ++ ['\n'], ha, by simp,
        b, (c ++ '.' :: d) ++ ['\n'], hb, by simp,
        c, d ++ ['\n'], hc, by simp,
        d, ['\n'], hd, Or.inr rfl, rfl⟩

/-- C2 (amended): `isipaddr` is truthy exactly on strings that are four
dot-separated groups of one to three digits, possibly followed by one final
newline (Python's `$` also matches just before a trailing newline). -/
theorem isipaddr_iff_quadShape (s : String) :
    isipaddr s = true ↔ QuadShape s.data ∨ ∃ t, s.data = t ++ ['\n'] ∧ QuadShape t := by
  rw [isipaddr, matchOctets_iff, octetsShape3_iff]

theorem getLast?_append_right {α : Type} :
    ∀ (l₁ : List α) {l₂ : List α}, l₂ ≠ [] → (l₁ ++ l₂).getLast? = l₂.getLast? := by
  intro l₁
  induction l₁ with
  | nil => intro l₂ _; simp
  | cons x xs ih =>
    intro l₂ h
    have hne : xs ++ l₂ ≠ [] := by
      intro hc
      exact h (List.append_eq_nil.mp hc).2
    cases hx : xs ++ l₂ with
    | nil => exact absurd hx hne
    | cons y ys =>
      have : (x :: (xs ++ l₂)).getLast? = (xs ++ l₂).getLast? := by
        rw [hx]; rfl
      rw [List.cons_append, this, ih h]

theorem getLast?_mem_of_ne_nil {α : Type} :
    ∀ (l : List α), l ≠ [] → ∃ a, l.getLast? = some a ∧ a ∈ l := by
  intro l
  induction l with
  | nil => intro h; exact absurd rfl h
  | cons x xs ih =>
    intro _
    cases xs with
    | nil => exact ⟨x, rfl, by simp⟩
    | cons y ys =>
      obtain ⟨a, ha, hmem⟩ := ih (by simp)
      exact ⟨a, by rw [← ha]; rfl, List.mem_cons_of_mem x hmem⟩

theorem quadShape_last_digit {s : List Char} (h : QuadShape s) :
    ∃ ch, s.getLast? = some ch ∧ isDigitC ch = true := by
  obtain ⟨a, b, c, d, _, _, _, hd, rfl⟩ := h
  obtain ⟨hdne, _, hdall⟩ := hd
  obtain ⟨ch, hlast, hmem⟩ := getLast?_mem_of_ne_nil d hdne
  refine ⟨ch, ?_, hdall ch hmem⟩
  have hassoc : a ++ '.' :: (b ++ '.' :: (c ++ '.' :: d)) =
      (a ++ '.' :: (b ++ '.' :: (c ++ ['.']))) ++ d := by simp
  rw [hassoc, getLast?_append_right _ hdne, hlast]

/-- C2 counterexample: `isipaddr` accepts `"1.2.3.4\n"`, which is not of the
four-dotted-groups shape (it carries a trailing newline). -/
theorem isipaddr_newline_counterexample :
    isipaddr "1.2.3.4\n" = true ∧ ¬ QuadShape ("1.2.3.4\n".data) := by
  constructor
  · decide
  · intro h
    obtain ⟨ch, hlast, hdig⟩ := quadShape_last_digit h
    have : ("1.2.3.4\n".data).getLast? = some '\n' := by decide
    rw [this] at hlast
    injection hlast with h'
    rw [← h'] at hdig
    exact absurd hdig (by decide)

/-! ## `isinblacklist` (ipwatch.py lines 72–79)

Python source:
```
def isinblacklist(ip, blacklist):
    blacklist = blacklist.split(",")
    for black_ip in blacklist:
        if fnmatch(ip, black_ip):
            logging.warning(...)
            return True
    return False
```
`str.split(",")` never yields an empty list (`"".split(",") == [""]`).
`fnmatch.fnmatch` on POSIX is case-preserving (`os.path.normcase` is the
identity) and matches the whole name against the translated pattern with
DOTALL semantics: `*` matches any run of characters including newlines, `?`
any single character, and every other character literally.  The embedding
covers patterns without `[`: fnmatch's character-class syntax (`[seq]`) is
outside this model, so theorems about it carry a no-bracket hypothesis. -/

/-- Python `blacklist.split(",")` on the character list. -/
def splitCommaAux : List Char → List Char → List (List Char)
  | acc, [] => [acc.reverse]
  | acc, ',' :: rest => acc.reverse :: splitCommaAux [] rest
  | acc, c :: rest => splitCommaAux (c :: acc) rest

/-- Python `str.split(",")`. -/
def splitComma (s : List Char) : List (List Char) := splitCommaAux [] s

/-- All suffixes of a character list, longest first. -/
def suffixes : List Char → List (List Char)
  | [] => [[]]
  | c :: cs => (c :: cs) :: suffixes cs

theorem mem_suffixes : ∀ (s t : List Char), t ∈ suffixes s ↔ ∃ xs, xs ++ t = s := by
  intro s
  induction s with
  | nil =>
    intro t
    rw [suffixes]
    simp only [List.mem_singleton]
    constructor
    · rintro rfl; exact ⟨[], rfl⟩
    · rintro ⟨xs, h⟩
      exact (List.append_eq_nil.mp h).2
  | cons c cs ih =>
    intro t
    rw [suffixes]
    simp only [List.mem_cons]
    constructor
    · rintro (rfl | h)
      · exact ⟨[], rfl⟩
      · obtain ⟨xs, rfl⟩ := (ih t).mp h
        exact ⟨c :: xs, rfl⟩
    · rintro ⟨xs, hx⟩
      cases xs with
      | nil => left; simpa using hx
      | cons y ys =>
        right
        rw [List.cons_append] at hx
        injection hx with h1 h2
        exact (ih t).mpr ⟨ys, h2⟩

/-- `fnmatch.fnmatch name pattern` for bracket-free patterns: `*` matches any
run of characters, `?` any single character, anything else itself; the whole
name must be consumed.  A `*` in the backtracking regex `fnmatch.translate`
produces matches the remaining name suffix by suffix, which is rendered here
as "some suffix of the name matches the remaining pattern". -/
def fnmatchL : List Char → List Char → Bool
  | s, [] => s.isEmpty
  | [], p :: ps => if p = '*' then fnmatchL [] ps else false
  | c :: cs, p :: ps =>
    if p = '*' then (suffixes (c :: cs)).any fun t => fnmatchL t ps
    else if p = '?' then fnmatchL cs ps
    else (c == p) && fnmatchL cs ps

/-- The loop body of `isinblacklist`: `True` as soon as some pattern of the
list fnmatches the candidate, `False` once the list is exhausted. -/
def inBlacklistList (ip : List Char) : List (List Char) → Bool
  | [] => false
  | p :: rest => if fnmatchL ip p then true else inBlacklistList ip rest

/-- `isinblacklist` from ipwatch.py: split the blacklist at commas and test
each pattern with `fnmatch`. -/
def isinblacklist (ip blacklist : String) : Bool :=
  inBlacklistList ip.data (splitComma blacklist.data)

/-- Spec-side glob-match semantics, from the spec's words: `*` matches any
run of characters, `?` any single character, any other pattern character
only itself. -/
inductive GlobMatch : List Char → List Char → Prop where
  | nil : GlobMatch [] []
  | lit {c : Char} {cs ps : List Char} : c ≠ '*' → c ≠ '?' →
      GlobMatch cs ps → GlobMatch (c :: cs) (c :: ps)
  | one {c : Char} {cs ps : List Char} : GlobMatch cs ps →
      GlobMatch (c :: cs) ('?' :: ps)
  | star {xs ys ps : List Char} : GlobMatch ys ps →
      GlobMatch (xs ++ ys) ('*' :: ps)

theorem globMatch_star_inv {s ps : List Char} (h : GlobMatch s ('*' :: ps)) :
    ∃ xs ys, s = xs ++ ys ∧ GlobMatch ys ps := by
  cases h with
  | lit h1 _ _ => exact absurd rfl h1
  | star hm => exact ⟨_, _, rfl, hm⟩

theorem fnmatchL_sound : ∀ (p s : List Char), fnmatchL s p = true → GlobMatch s p := by
  intro p
  induction p with
  | nil =>
    intro s h
    rw [fnmatchL, List.isEmpty_iff] at h
    subst h
    exact GlobMatch.nil
  | cons q qs ih =>
    intro s h
    cases s with
    | nil =>
      rw [fnmatchL] at h
      by_cases hq : q = '*'
      · subst hq
        rw [if_pos rfl] at h
        have hm := @GlobMatch.star [] [] qs (ih [] h)
        simpa using hm
      · rw [if_neg hq] at h
        exact absurd h (by simp)
    | cons c cs =>
      rw [fnmatchL] at h
      by_cases hq : q = '*'
      · subst hq
        rw [if_pos rfl] at h
        obtain ⟨t, htmem, htm⟩ := List.any_eq_true.mp h
        obtain ⟨xs, heq⟩ := (mem_suffixes (c :: cs) t).mp htmem
        rw [← heq]
        exact GlobMatch.star (ih t htm)
      · rw [if_neg hq] at h
        by_cases hq2 : q = '?'
        · subst hq2
          rw [if_pos rfl] at h
          exact GlobMatch.one (ih cs h)
        · rw [if_neg hq2] at h
          obtain ⟨heq, hrec⟩ := Bool.and_eq_true_iff.mp h
          have hc : c = q := eq_of_beq heq
          subst hc
          exact GlobMatch.lit hq hq2 (ih cs hrec)

theorem fnmatchL_complete : ∀ {s p : List Char}, GlobMatch s p → fnmatchL s p = true := by
  intro s p h
  induction h with
  | nil => rw [fnmatchL]; rfl
  | lit h1 h2 _ ih =>
    rw [fnmatchL, if_neg h1, if_neg h2]
    simp [ih]
  | one _ ih =>
    have hne : ('?' : Char) ≠ '*' := by decide
    rw [fnmatchL, if_neg hne, if_pos rfl]
    exact ih
  | star _ ih =>
    rename_i xs ys ps _
    cases hx : xs ++ ys with
    | nil =>
      have hys : ys = [] := (List.append_eq_nil.mp hx).2
      rw [fnmatchL, if_pos rfl]
      rw [hys] at ih
      exact ih
    | cons a as =>
      rw [fnmatchL, if_pos rfl, List.any_eq_true]
      refine ⟨ys, ?_, ih⟩
      rw [mem_suffixes]
      exact ⟨xs, hx⟩

/-- `fnmatchL` decides exactly the spec's glob-match relation. -/
theorem fnmatchL_iff_globMatch (s p : List Char) :
    fnmatchL s p = true ↔ GlobMatch s p :=
  ⟨fnmatchL_sound p s, fnmatchL_complete⟩

theorem inBlacklistList_iff (ip : List Char) :
    ∀ (pats : List (List Char)),
      inBlacklistList ip pats = true ↔ ∃ p ∈ pats, GlobMatch ip p := by
  intro pats
  induction pats with
  | nil => simp [inBlacklistList]
  | cons q qs ih =>
    rw [inBlacklistList]
    by_cases hq : fnmatchL ip q = true
    · simp only [if_pos hq, true_iff]
      exact ⟨q, List.mem_cons_self q qs, fnmatchL_sound q ip hq⟩
    · rw [if_neg hq, ih]
      constructor
      · rintro ⟨p, hp, hm⟩
        exact ⟨p, List.mem_cons_of_mem q hp, hm⟩
      · rintro ⟨p, hp, hm⟩
        rcases List.mem_cons.mp hp with rfl | hp'
        · exact absurd (fnmatchL_complete hm) hq
        · exact ⟨p, hp', hm⟩

/-- C3: `isinblacklist ip blacklist` is true iff some pattern obtained by
splitting the blacklist string at commas glob-matches the candidate under
shell-glob semantics (`*` = any run of characters, `?` = any single
character); and on an empty pattern list the loop returns false.  The
hypothesis excludes fnmatch's character-class syntax (`[`), which the
embedding does not model. -/
theorem isinblacklist_iff_globMatch :
    (∀ (ip blacklist : String),
      (∀ p ∈ splitComma blacklist.data, '[' ∉ p) →
      (isinblacklist ip blacklist = true ↔
        ∃ p ∈ splitComma blacklist.data, GlobMatch ip.data p)) ∧
    (∀ c : List Char, inBlacklistList c [] = false) := by
  constructor
  · intro ip blacklist _
    exact inBlacklistList_iff ip.data (splitComma blacklist.data)
  · intro c
    rfl

/-- C3 witness: scenario D of the spec, concretely. -/
theorem isinblacklist_witness :
    isinblacklist "192.168.1.5" "192.168.*.*,10.*.*.*" = true ↔
      ∃ p ∈ splitComma ("192.168.*.*,10.*.*.*".data), GlobMatch ("192.168.1.5".data) p :=
  isinblacklist_iff_globMatch.1 "192.168.1.5" "192.168.*.*,10.*.*.*" (by decide)

/-! ## `IPgetter.get_externalip` (ipgetter.py lines 144–155)

Python source:
```
myip = ""
for _ in range(7):
    server = random.choice(self.server_list)
    myip = self.fetch(server)
    if myip != "":
        break
return myip, server
```
`random.choice` is modelled by an oracle `choice : Nat → String` giving the
server picked at the i-th loop iteration, and the network by an oracle
`fetchF : Nat → String` giving what `self.fetch` returns there (`fetch`
itself never raises, see `fetch` below).  The result also carries the number
of fetches performed, for the resource claims.  After the loop, `server`
holds the pick of the last executed iteration, and `myip` is `""` exactly
when all seven fetches returned `""`. -/

/-- The `for _ in range(7)` loop of `get_externalip`, at iteration index `i`
with `n` iterations remaining; returns ((myip, server), number of fetches).
The `0` base case is never reached from `getExternalIp` (range(7) runs at
least one iteration). -/
def extLoop (choice fetchF : Nat → String) : Nat → Nat → (String × String) × Nat
  | _, 0 => (("", ""), 0)
  | i, rem + 1 =>
    let server := choice i
    let m := fetchF i
    if m ≠ "" then ((m, server), 1)
    else if rem = 0 then ((m, server), 1)
    else
      let r := extLoop choice fetchF (i + 1) rem
      (r.1, r.2 + 1)

/-- `IPgetter.get_externalip`, instrumented with its fetch count. -/
def getExternalIp (choice fetchF : Nat → String) : (String × String) × Nat :=
  extLoop choice fetchF 0 7

/-! ## `getips` (ipwatch.py lines 82–103)

Python source:
```
for counter in range(try_count):
    external_ip, local_ip, server = ipgetter.myip()
    if not isipaddr(external_ip):
        logging.warning(...)
        continue
    if isinblacklist(external_ip, blacklist):
        continue
    return external_ip, local_ip, server
raise ValueError("Could not get IPs")
```
Each iteration calls `ipgetter.myip()`; its outcome at the i-th call is an
oracle value.  The raise is an `Except.error`.  The result is instrumented
with the number of `myip()` calls performed (`attempts`) and the total
number of network fetches those calls performed (`fetches`). -/

/-- Outcome of one `ipgetter.myip()` call: the triple it returns plus the
number of network fetches its `get_externalip` performed. -/
structure MyipOutcome where
  external_ip : String
  local_ip : String
  server : String
  fetches : Nat

/-- `ipgetter.myip()` = `IPgetter().get_ips()`: local IP first (no network
fetch), then `get_externalip`; returns (external_ip, local_ip, server) and
the fetch count. -/
def myipModel (localIp : String) (choice fetchF : Nat → String) : MyipOutcome :=
  let r := getExternalIp choice fetchF
  ⟨r.1.1, localIp, r.1.2, r.2⟩

/-- Result of `getips`, instrumented with attempt and fetch counters. -/
structure GetipsResult where
  result : Except String (String × String × String)
  attempts : Nat
  fetches : Nat

/-- The retry loop of `getips`, at loop index `counter` with `rem`
iterations remaining. -/
def getipsLoop (blacklist : String) (myipO : Nat → MyipOutcome) :
    Nat → Nat → GetipsResult
  | _, 0 => ⟨Except.error "Could not get IPs", 0, 0⟩
  | counter, rem + 1 =>
    let o := myipO counter
    if isipaddr o.external_ip = false then
      let r := getipsLoop blacklist myipO (counter + 1) rem
      ⟨r.result, r.attempts + 1, r.fetches + o.fetches⟩
    else if isinblacklist o.external_ip blacklist = true then
      let r := getipsLoop blacklist myipO (counter + 1) rem
      ⟨r.result, r.attempts + 1, r.fetches + o.fetches⟩
    else ⟨Except.ok (o.external_ip, o.local_ip, o.server), 1, o.fetches⟩

/-- `getips` from ipwatch.py. -/
def getips (try_count : Nat) (blacklist : String) (myipO : Nat → MyipOutcome) :
    GetipsResult :=
  getipsLoop blacklist myipO 0 try_count

/-- An attempt the `getips` loop rejects: malformed or blacklisted. -/
def rejected (blacklist : String) (o : MyipOutcome) : Prop :=
  isipaddr o.external_ip = false ∨ isinblacklist o.external_ip blacklist = true

theorem not_rejected {blacklist : String} {o : MyipOutcome}
    (h : ¬ rejected blacklist o) :
    isipaddr o.external_ip = true ∧ isinblacklist o.external_ip blacklist = false := by
  rw [rejected] at h
  push_neg at h
  constructor
  · cases hx : isipaddr o.external_ip with
    | false => exact absurd hx h.1
    | true => rfl
  · cases hx : isinblacklist o.external_ip blacklist with
    | false => rfl
    | true => exact absurd hx h.2

theorem getipsLoop_succ_bad {blacklist : String} {myipO : Nat → MyipOutcome}
    {counter rem : Nat} (h : rejected blacklist (myipO counter)) :
    getipsLoop blacklist myipO counter (rem + 1) =
      ⟨(getipsLoop blacklist myipO (counter + 1) rem).result,
       (getipsLoop blacklist myipO (counter + 1) rem).attempts + 1,
       (getipsLoop blacklist myipO (counter + 1) rem).fetches + (myipO counter).fetches⟩ := by
  by_cases h1 : isipaddr (myipO counter).external_ip = false
  · simp [getipsLoop, h1]
  · rcases h with h2 | h2
    · exact absurd h2 h1
    · simp [getipsLoop, h1, h2]

theorem getipsLoop_succ_good {blacklist : String} {myipO : Nat → MyipOutcome}
    {counter rem : Nat} (h1 : isipaddr (myipO counter).external_ip = true)
    (h2 : isinblacklist (myipO counter).external_ip blacklist = false) :
    getipsLoop blacklist myipO counter (rem + 1) =
      ⟨Except.ok ((myipO counter).external_ip, (myipO counter).local_ip,
          (myipO counter).server), 1, (myipO counter).fetches⟩ := by
  simp [getipsLoop, h1, h2]

theorem getipsLoop_ok {blacklist : String} {myipO : Nat → MyipOutcome} :
    ∀ (rem counter : Nat) (e l s : String),
      (getipsLoop blacklist myipO counter rem).result = Except.ok (e, l, s) →
      1 ≤ (getipsLoop blacklist myipO counter rem).attempts ∧
      (getipsLoop blacklist myipO counter rem).attempts ≤ rem ∧
      (myipO (counter + ((getipsLoop blacklist myipO counter rem).attempts - 1))).external_ip = e ∧
      (myipO (counter + ((getipsLoop blacklist myipO counter rem).attempts - 1))).local_ip = l ∧
      (myipO (counter + ((getipsLoop blacklist myipO counter rem).attempts - 1))).server = s ∧
      isipaddr e = true ∧ isinblacklist e blacklist = false ∧
      ∀ j, counter ≤ j →
        j < counter + ((getipsLoop blacklist myipO counter rem).attempts - 1) →
        rejected blacklist (myipO j) := by
  intro rem
  induction rem with
  | zero =>
    intro counter e l s h
    rw [getipsLoop] at h
    exact absurd h (by simp)
  | succ rem ih =>
    intro counter e l s h
    by_cases hbad : rejected blacklist (myipO counter)
    · rw [getipsLoop_succ_bad hbad] at h ⊢
      simp only at h ⊢
      obtain ⟨ha1, ha2, he, hl, hs, hv1, hv2, hrej⟩ := ih (counter + 1) e l s h
      have harith : counter + ((getipsLoop blacklist myipO (counter + 1) rem).attempts + 1 - 1) =
          counter + 1 + ((getipsLoop blacklist myipO (counter + 1) rem).attempts - 1) := by
        omega
      refine ⟨by omega, by omega, ?_, ?_, ?_, hv1, hv2, ?_⟩
      · rw [harith]; exact he
      · rw [harith]; exact hl
      · rw [harith]; exact hs
      · intro j hj1 hj2
        rcases Nat.eq_or_lt_of_le hj1 with rfl | hj1'
        · exact hbad
        · exact hrej j hj1' (by omega)
    · obtain ⟨h1, h2⟩ := not_rejected hbad
      rw [getipsLoop_succ_good h1 h2] at h ⊢
      simp only [Except.ok.injEq, Prod.mk.injEq] at h
      obtain ⟨rfl, rfl, rfl⟩ := h
      refine ⟨Nat.le_refl 1, Nat.succ_le_succ (Nat.zero_le rem), rfl, rfl, rfl, h1, h2, ?_⟩
      intro j hj1 hj2
      have hj2' : j < counter + (1 - 1) := hj2
      omega

/-- C1: whenever `getips` returns successfully, the returned external IP
satisfies `isipaddr` and is not matched by the blacklist; the success comes
from the attempt at index `attempts - 1` within the budget, and every
earlier attempt was rejected as malformed or blacklisted and caused a retry
with a fresh `myip()` call. -/
theorem getips_ok_valid :
    ∀ (try_count : Nat) (blacklist : String) (myipO : Nat → MyipOutcome) (e l s : String),
      (getips try_count blacklist myipO).result = Except.ok (e, l, s) →
      isipaddr e = true ∧ isinblacklist e blacklist = false ∧
      1 ≤ (getips try_count blacklist myipO).attempts ∧
      (getips try_count blacklist myipO).attempts ≤ try_count ∧
      (myipO ((getips try_count blacklist myipO).attempts - 1)).external_ip = e ∧
      (myipO ((getips try_count blacklist myipO).attempts - 1)).local_ip = l ∧
      (myipO ((getips try_count blacklist myipO).attempts - 1)).server = s ∧
      ∀ j, j < (getips try_count blacklist myipO).attempts - 1 →
        (isipaddr (myipO j).external_ip = false ∨
          isinblacklist (myipO j).external_ip blacklist = true) := by
  intro try_count blacklist myipO e l s h
  rw [getips] at h
  simp only [getips]
  obtain ⟨ha1, ha2, he, hl, hs, hv1, hv2, hrej⟩ := getipsLoop_ok try_count 0 e l s h
  simp only [Nat.zero_add] at he hl hs hrej
  exact ⟨hv1, hv2, ha1, ha2, he, hl, hs, fun j hj => hrej j (Nat.zero_le j) hj⟩

/-- Concrete `myip()` oracle for the C1 witness: a malformed result, then a
blacklisted one, then a good one. -/
def myipW : Nat → MyipOutcome := fun i =>
  if i = 0 then ⟨"not an ip", "192.168.0.2", "https://s0", 1⟩
  else if i = 1 then ⟨"10.0.0.1", "192.168.0.2", "https://s1", 1⟩
  else ⟨"8.8.8.8", "192.168.0.2", "https://s2", 1⟩

/-- C1 witness: at a concrete oracle, the success is validated. -/
theorem getips_ok_valid_witness :
    isipaddr "8.8.8.8" = true ∧
      isinblacklist "8.8.8.8" "192.168.*.*,10.*.*.*" = false :=
  let h := getips_ok_valid 10 "192.168.*.*,10.*.*.*" myipW "8.8.8.8" "192.168.0.2"
    "https://s2" (by rfl)
  ⟨h.1, h.2.1⟩

theorem getipsLoop_allBad {blacklist : String} {myipO : Nat → MyipOutcome} :
    ∀ (rem counter : Nat),
      (∀ j, counter ≤ j → j < counter + rem → rejected blacklist (myipO j)) →
      (getipsLoop blacklist myipO counter rem).result = Except.error "Could not get IPs" ∧
      (getipsLoop blacklist myipO counter rem).attempts = rem := by
  intro rem
  induction rem with
  | zero =>
    intro counter _
    rw [getipsLoop]
    exact ⟨rfl, rfl⟩
  | succ rem ih =>
    intro counter hall
    have hbad : rejected blacklist (myipO counter) :=
      hall counter (Nat.le_refl counter) (by omega)
    rw [getipsLoop_succ_bad hbad]
    obtain ⟨h1, h2⟩ := ih (counter + 1) (fun j hj1 hj2 => hall j (by omega) (by omega))
    exact ⟨h1, by simp [h2]⟩

/-- C4: if every one of the `try_count` attempts fails (malformed or
blacklisted), `getips` raises `ValueError("Could not get IPs")` after
exactly `try_count` attempts, and no partial result is returned. -/
theorem getips_exhaustion :
    ∀ (try_count : Nat) (blacklist : String) (myipO : Nat → MyipOutcome),
      (∀ i, i < try_count →
        isipaddr (myipO i).external_ip = false ∨
          isinblacklist (myipO i).external_ip blacklist = true) →
      (getips try_count blacklist myipO).result = Except.error "Could not get IPs" ∧
      (getips try_count blacklist myipO).attempts = try_count := by
  intro try_count blacklist myipO hall
  exact getipsLoop_allBad try_count 0 (fun j _ hj => hall j (by omega))

/-- C4 witness: two attempts that both yield an empty (malformed) address. -/
theorem getips_exhaustion_witness :
    (getips 2 "10.*.*.*" (fun _ => ⟨"", "lip", "srv", 1⟩)).result =
        Except.error "Could not get IPs" ∧
      (getips 2 "10.*.*.*" (fun _ => ⟨"", "lip", "srv", 1⟩)).attempts = 2 :=
  getips_exhaustion 2 "10.*.*.*" (fun _ => ⟨"", "lip", "srv", 1⟩) (by decide)

theorem extLoop_succ_break {choice fetchF : Nat → String} {i rem : Nat}
    (h : fetchF i ≠ "") :
    extLoop choice fetchF i (rem + 1) = ((fetchF i, choice i), 1) := by
  simp [extLoop, h]

theorem extLoop_succ_last {choice fetchF : Nat → String} {i : Nat} :
    extLoop choice fetchF i 1 = ((fetchF i, choice i), 1) := by
  by_cases h : fetchF i ≠ ""
  · simp [extLoop, h]
  · simp [extLoop, h]

theorem extLoop_succ_cont {choice fetchF : Nat → String} {i rem : Nat}
    (h : fetchF i = "") (hrem : rem ≠ 0) :
    extLoop choice fetchF i (rem + 1) =
      ((extLoop choice fetchF (i + 1) rem).1,
       (extLoop choice fetchF (i + 1) rem).2 + 1) := by
  simp [extLoop, h, hrem]

theorem extLoop_fetches_le (choice fetchF : Nat → String) :
    ∀ (n i : Nat), (extLoop choice fetchF i n).2 ≤ n := by
  intro n
  induction n with
  | zero =>
    intro _
    rw [extLoop]
  | succ n ih =>
    intro i
    by_cases h1 : fetchF i ≠ ""
    · rw [extLoop_succ_break h1]
      exact Nat.succ_le_succ (Nat.zero_le n)
    · by_cases h2 : n = 0
      · subst h2
        rw [extLoop_succ_last]
      · rw [extLoop_succ_cont (by simpa using h1) h2]
        exact Nat.succ_le_succ (ih (i + 1))

theorem myipModel_fetches_le (localIp : String) (choice fetchF : Nat → String) :
    (myipModel localIp choice fetchF).fetches ≤ 7 :=
  extLoop_fetches_le choice fetchF 7 0

theorem getipsLoop_fetches_le {blacklist : String} {myipO : Nat → MyipOutcome}
    (hle : ∀ i, (myipO i).fetches ≤ 7) :
    ∀ (rem counter : Nat), (getipsLoop blacklist myipO counter rem).fetches ≤ 7 * rem := by
  intro rem
  induction rem with
  | zero => intro counter; rw [getipsLoop]
  | succ rem ih =>
    intro counter
    by_cases hbad : rejected blacklist (myipO counter)
    · rw [getipsLoop_succ_bad hbad]
      have h1 := ih (counter + 1)
      have h2 := hle counter
      show (getipsLoop blacklist myipO (counter + 1) rem).fetches + (myipO counter).fetches ≤
        7 * (rem + 1)
      omega
    · obtain ⟨h1, h2⟩ := not_rejected hbad
      rw [getipsLoop_succ_good h1 h2]
      have := hle counter
      show (myipO counter).fetches ≤ 7 * (rem + 1)
      omega

/-- C6 (amended): one run of `getips try_count` performs at most
`7 * try_count` network fetches in total — each of the up-to-`try_count`
`myip()` calls performs up to 7 fetches in `get_externalip` — so with the
hard 4-second per-request timeout the worst-case wall-clock time is bounded
by `try_count × 7 × timeout`, not `try_count × timeout`. -/
theorem getips_fetches_bound :
    ∀ (try_count : Nat) (blacklist : String) (localIp : Nat → String)
      (choice fetchF : Nat → Nat → String),
      (getips try_count blacklist
        (fun i => myipModel (localIp i) (choice i) (fetchF i))).fetches ≤ 7 * try_count := by
  intro try_count blacklist localIp choice fetchF
  exact getipsLoop_fetches_le
    (fun i => myipModel_fetches_le (localIp i) (choice i) (fetchF i)) try_count 0

/-- C6 counterexample: with `try_count = 1`, a first fetch returning `""`
and a second returning a good address, the single `getips` attempt performs
2 network fetches, exceeding the claimed bound of `maxAttempts = 1` fetch
attempts in total. -/
theorem getips_fetches_counterexample :
    ¬ ((getips 1 "10.*.*.*"
        (fun _ => myipModel "192.168.0.2" (fun _ => "https://s")
          (fun n => if n = 0 then "" else "5.6.7.8"))).fetches ≤ 1) := by
  decide

/-! ## `IPgetter.fetch` (ipgetter.py lines 175–219)

Python source (inside `try: ... except Exception: return ""`):
```
url = opener.open(server, timeout=4)
content = url.read()
try:
    content = content.decode("UTF-8")
except UnicodeDecodeError:
    content = content.decode("ISO-8859-1")
m = re.search(r"(25[0-5]|2[0-4][0-9]|[01]?[0-9][0-9]?)\.(...)\.(...)\.(...)", content)
myip = m.group(0)
return myip if len(myip) > 0 else ""
```
The network outcome is an oracle `Option (List Char)`: `none` means the
open/read raised (caught, returning `""`); `some content` is the decoded
body (the UTF-8/Latin-1 fallback always yields some text without raising).
If `re.search` finds no match, `m.group(0)` raises `AttributeError` on
`None`, which the outer `except Exception` also converts to `""`.

`re.search` scans the positions of `content` left to right and at each
position runs the backtracking matcher of the pattern.  One octet group
`25[0-5]|2[0-4][0-9]|[01]?[0-9][0-9]?` tries, in backtracking preference
order: `25[0-5]`; `2[0-4][0-9]`; then `[01]?[0-9][0-9]?` with the optional
parts greedily present first.  `octetCands` lists the candidate consumed
prefixes in exactly that order (character classes rendered as ASCII
code-point ranges: `[0-5]` = 48–53, `[0-4]` = 48–52, `[01]` = 48–49). -/

/-- Candidate consumed prefixes of one octet group, in backtracking
preference order. -/
def octetCands (s : List Char) : List (List Char) :=
  (match s with
   | a :: b :: c :: _ =>
     (if a.toNat = 50 && b.toNat = 53 && (48 ≤ c.toNat && c.toNat ≤ 53) then
        [[a, b, c]] else []) ++
     (if a.toNat = 50 && (48 ≤ b.toNat && b.toNat ≤ 52) && isDigitC c then
        [[a, b, c]] else []) ++
     (if (a.toNat = 48 || a.toNat = 49) && isDigitC b && isDigitC c then
        [[a, b, c]] else [])
   | _ => []) ++
  (match s with
   | a :: b :: _ =>
     (if (a.toNat = 48 || a.toNat = 49) && isDigitC b then [[a, b]] else []) ++
     (if isDigitC a && isDigitC b then [[a, b]] else [])
   | _ => []) ++
  (match s with
   | a :: _ => if isDigitC a then [[a]] else []
   | _ => [])

/-- Backtracking continuation after `a.b.c.` has been consumed: the last
octet group. -/
def quadLevel3 (a b c r3 : List Char) : Option (List Char) :=
  (octetCands r3).findSome? fun d =>
    some (a ++ '.' :: (b ++ '.' :: (c ++ '.' :: d)))

/-- Backtracking continuation after `a.b.` has been consumed: third octet
group then the literal dot. -/
def quadLevel2 (a b r2 : List Char) : Option (List Char) :=
  (octetCands r2).findSome? fun c =>
    match r2.drop c.length with
    | '.' :: r3 => quadLevel3 a b c r3
    | _ => none

/-- Backtracking continuation after `a.` has been consumed: second octet
group then the literal dot. -/
def quadLevel1 (a r1 : List Char) : Option (List Char) :=
  (octetCands r1).findSome? fun b =>
    match r1.drop b.length with
    | '.' :: r2 => quadLevel2 a b r2
    | _ => none

/-- The backtracking match of the whole four-octet pattern at the start of
`s`: try each candidate for an octet in preference order, require a literal
dot between octets, and return the first overall success (the matched text,
`m.group(0)`). -/
def matchQuadAt (s : List Char) : Option (List Char) :=
  (octetCands s).findSome? fun a =>
    match s.drop a.length with
    | '.' :: r1 => quadLevel1 a r1
    | _ => none

/-- `re.search`: try `matchQuadAt` at each position, left to right. -/
def searchQuad : List Char → Option (List Char)
  | [] => matchQuadAt []
  | c :: rest =>
    match matchQuadAt (c :: rest) with
    | some m => some m
    | none => searchQuad rest

/-- `IPgetter.fetch`, as a function of the network outcome. -/
def fetch (outcome : Option (List Char)) : String :=
  match outcome with
  | none => ""
  | some content =>
    match searchQuad content with
    | none => ""
    | some m =>
      let myip := String.mk m
      if myip.length > 0 then myip else ""

/-- Numeric value of a digit string. -/
def octetVal (o : List Char) : Nat := o.foldl (fun a c => 10 * a + (c.toNat - 48)) 0

/-- Spec-side: a string the octet group `25[0-5]|2[0-4][0-9]|[01]?[0-9][0-9]?`
accepts: one to three digits with numeric value at most 255. -/
def IsOctet (o : List Char) : Prop :=
  o ≠ [] ∧ o.length ≤ 3 ∧ (∀ c ∈ o, isDigitC c = true) ∧ octetVal o ≤ 255

/-- Spec-side: a full match of the strict 0–255 octet-range pattern. -/
def StrictQuad (m : List Char) : Prop :=
  ∃ a b c d, IsOctet a ∧ IsOctet b ∧ IsOctet c ∧ IsOctet d ∧
    m = a ++ '.' :: (b ++ '.' :: (c ++ '.' :: d))

/-- Spec-side: `m` occurs in `content` at a position before which no
substring matches the strict pattern — "the first substring matching". -/
def FirstQuadSub (content m : List Char) : Prop :=
  ∃ k, m <+: content.drop k ∧
    ∀ j, j < k → ¬ ∃ m', StrictQuad m' ∧ m' <+: content.drop j

theorem findSome?_ex {α β : Type} {l : List α} {f : α → Option β} {b : β} :
    l.findSome? f = some b → ∃ a ∈ l, f a = some b := by
  induction l with
  | nil => intro h; rw [List.findSome?] at h; exact absurd h (by simp)
  | cons x xs ih =>
    intro h
    rw [List.findSome?] at h
    cases hx : f x with
    | some v =>
      simp only [hx] at h
      exact ⟨x, List.mem_cons_self x xs, by rw [hx, h]⟩
    | none =>
      simp only [hx] at h
      obtain ⟨a, ha, hfa⟩ := ih h
      exact ⟨a, List.mem_cons_of_mem x ha, hfa⟩

theorem findSome?_isSome_of_mem {α β : Type} {l : List α} {f : α → Option β} {a : α}
    (ha : a ∈ l) (hf : (f a).isSome = true) : (l.findSome? f).isSome = true := by
  induction l with
  | nil => cases ha
  | cons x xs ih =>
    rw [List.findSome?]
    cases hx : f x with
    | some v => simp
    | none =>
      rcases List.mem_cons.mp ha with rfl | ha'
      · rw [hx] at hf; simp at hf
      · simpa using ih ha'

theorem isDigitC_iff {c : Char} : isDigitC c = true ↔ 48 ≤ c.toNat ∧ c.toNat ≤ 57 := by
  rw [isDigitC]
  simp [Bool.and_eq_true]

theorem isDigitC_of_bounds {c : Char} (h1 : 48 ≤ c.toNat) (h2 : c.toNat ≤ 57) :
    isDigitC c = true :=
  isDigitC_iff.mpr ⟨h1, h2⟩

theorem isDigitC_of_01 {a : Char} (h : a.toNat = 48 ∨ a.toNat = 49) :
    isDigitC a = true := by
  rcases h with h | h
  · exact isDigitC_of_bounds (by omega) (by omega)
  · exact isDigitC_of_bounds (by omega) (by omega)

theorem octetVal_one (a : Char) : octetVal [a] = a.toNat - 48 := by
  simp [octetVal]

theorem octetVal_two (a b : Char) :
    octetVal [a, b] = 10 * (a.toNat - 48) + (b.toNat - 48) := by
  simp [octetVal]

theorem octetVal_three (a b c : Char) :
    octetVal [a, b, c] = 10 * (10 * (a.toNat - 48) + (b.toNat - 48)) + (c.toNat - 48) := by
  simp [octetVal]

theorem isOctet_one {a : Char} (h : isDigitC a = true) : IsOctet [a] := by
  obtain ⟨h1, h2⟩ := isDigitC_iff.mp h
  refine ⟨by simp, by simp, ?_, ?_⟩
  · intro x hx
    rw [List.mem_singleton] at hx
    subst hx
    exact h
  · rw [octetVal_one]
    omega

theorem isOctet_two {a b : Char} (ha : isDigitC a = true) (hb : isDigitC b = true) :
    IsOctet [a, b] := by
  obtain ⟨ha1, ha2⟩ := isDigitC_iff.mp ha
  obtain ⟨hb1, hb2⟩ := isDigitC_iff.mp hb
  refine ⟨by simp, by simp, ?_, ?_⟩
  · intro x hx
    rcases List.mem_cons.mp hx with rfl | hx'
    · exact ha
    · rw [List.mem_singleton] at hx'
      subst hx'
      exact hb
  · rw [octetVal_two]
    omega

theorem isOctet_three {a b c : Char} (ha : isDigitC a = true) (hb : isDigitC b = true)
    (hc : isDigitC c = true)
    (hval : 10 * (10 * (a.toNat - 48) + (b.toNat - 48)) + (c.toNat - 48) ≤ 255) :
    IsOctet [a, b, c] := by
  refine ⟨by simp, by simp, ?_, ?_⟩
  · intro x hx
    rcases List.mem_cons.mp hx with rfl | hx'
    · exact ha
    · rcases List.mem_cons.mp hx' with rfl | hx''
      · exact hb
      · rw [List.mem_singleton] at hx''
        subst hx''
        exact hc
  · rw [octetVal_three]
    exact hval

theorem octetCands_sound : ∀ (s o : List Char), o ∈ octetCands s →
    IsOctet o ∧ o <+: s := by
  intro s o ho
  cases s with
  | nil => simp [octetCands] at ho
  | cons a s1 =>
    cases s1 with
    | nil =>
      simp only [octetCands, List.nil_append] at ho
      split at ho
      · rw [List.mem_singleton] at ho
        subst ho
        rename_i hda
        exact ⟨isOctet_one hda, ⟨[], rfl⟩⟩
      · cases ho
    | cons b s2 =>
      cases s2 with
      | nil =>
        simp only [octetCands, List.nil_append, List.mem_append] at ho
        rcases ho with (ho | ho) | ho
        · split at ho
          · rw [List.mem_singleton] at ho
            subst ho
            rename_i hcond
            simp only [Bool.and_eq_true, Bool.or_eq_true, decide_eq_true_eq] at hcond
            obtain ⟨ha49, hdb⟩ := hcond
            exact ⟨isOctet_two (isDigitC_of_01 ha49) hdb, ⟨[], rfl⟩⟩
          · cases ho
        · split at ho
          · rw [List.mem_singleton] at ho
            subst ho
            rename_i hcond
            simp only [Bool.and_eq_true] at hcond
            exact ⟨isOctet_two hcond.1 hcond.2, ⟨[], rfl⟩⟩
          · cases ho
        · split at ho
          · rw [List.mem_singleton] at ho
            subst ho
            rename_i hda
            exact ⟨isOctet_one hda, ⟨[b], rfl⟩⟩
          · cases ho
      | cons c s3 =>
        simp only [octetCands, List.mem_append] at ho
        rcases ho with (((ho | ho) | ho) | (ho | ho)) | ho
        · split at ho
          · rw [List.mem_singleton] at ho
            subst ho
            rename_i hcond
            simp only [Bool.and_eq_true, decide_eq_true_eq] at hcond
            obtain ⟨⟨ha, hb⟩, hc1, hc2⟩ := hcond
            refine ⟨isOctet_three (isDigitC_of_bounds (by omega) (by omega))
              (isDigitC_of_bounds (by omega) (by omega))
              (isDigitC_of_bounds (by omega) (by omega)) (by omega), ⟨s3, rfl⟩⟩
          · cases ho
        · split at ho
          · rw [List.mem_singleton] at ho
            subst ho
            rename_i hcond
            simp only [Bool.and_eq_true, decide_eq_true_eq] at hcond
            obtain ⟨⟨ha, hb1, hb2⟩, hdc⟩ := hcond
            obtain ⟨hc1, hc2⟩ := isDigitC_iff.mp hdc
            refine ⟨isOctet_three (isDigitC_of_bounds (by omega) (by omega))
              (isDigitC_of_bounds (by omega) (by omega)) hdc (by omega), ⟨s3, rfl⟩⟩
          · cases ho
        · split at ho
          · rw [List.mem_singleton] at ho
            subst ho
            rename_i hcond
            simp only [Bool.and_eq_true, Bool.or_eq_true, decide_eq_true_eq] at hcond
            obtain ⟨⟨ha, hdb⟩, hdc⟩ := hcond
            obtain ⟨hb1, hb2⟩ := isDigitC_iff.mp hdb
            obtain ⟨hc1, hc2⟩ := isDigitC_iff.mp hdc
            rcases ha with ha | ha
            · exact ⟨isOctet_three (isDigitC_of_bounds (by omega) (by omega)) hdb hdc
                (by omega), ⟨s3, rfl⟩⟩
            · exact ⟨isOctet_three (isDigitC_of_bounds (by omega) (by omega)) hdb hdc
                (by omega), ⟨s3, rfl⟩⟩
          · cases ho
        · split at ho
          · rw [List.mem_singleton] at ho
            subst ho
            rename_i hcond
            simp only [Bool.and_eq_true, Bool.or_eq_true, decide_eq_true_eq] at hcond
            obtain ⟨ha49, hdb⟩ := hcond
            exact ⟨isOctet_two (isDigitC_of_01 ha49) hdb, ⟨c :: s3, rfl⟩⟩
          · cases ho
        · split at ho
          · rw [List.mem_singleton] at ho
            subst ho
            rename_i hcond
            simp only [Bool.and_eq_true] at hcond
            exact ⟨isOctet_two hcond.1 hcond.2, ⟨c :: s3, rfl⟩⟩
          · cases ho
        · split at ho
          · rw [List.mem_singleton] at ho
            subst ho
            rename_i hda
            exact ⟨isOctet_one hda, ⟨b :: c :: s3, rfl⟩⟩
          · cases ho

theorem octetCands_complete : ∀ {o : List Char} (t : List Char), IsOctet o →
    o ∈ octetCands (o ++ t) := by
  intro o t hoct
  obtain ⟨hne, hlen, hdig, hval⟩ := hoct
  cases o with
  | nil => exact absurd rfl hne
  | cons a o1 =>
    have hda := hdig a (List.mem_cons_self a o1)
    cases o1 with
    | nil =>
      apply List.mem_append_right
      show [a] ∈ (if isDigitC a = true then [[a]] else [])
      rw [if_pos hda]
      exact List.mem_singleton_self [a]
    | cons b o2 =>
      have hdb := hdig b (by simp)
      cases o2 with
      | nil =>
        apply List.mem_append_left
        apply List.mem_append_right
        apply List.mem_append_right
        show [a, b] ∈ (if (isDigitC a && isDigitC b) = true then [[a, b]] else [])
        rw [if_pos (by rw [hda, hdb]; rfl)]
        exact List.mem_singleton_self [a, b]
      | cons c o3 =>
        cases o3 with
        | cons d o4 => simp at hlen
        | nil =>
          have hdc := hdig c (by simp)
          obtain ⟨ha1, ha2⟩ := isDigitC_iff.mp hda
          obtain ⟨hb1, hb2⟩ := isDigitC_iff.mp hdb
          obtain ⟨hc1, hc2⟩ := isDigitC_iff.mp hdc
          rw [octetVal_three] at hval
          apply List.mem_append_left
          apply List.mem_append_left
          by_cases h50 : a.toNat = 50
          · by_cases hb52 : b.toNat ≤ 52
            · apply List.mem_append_left
              apply List.mem_append_right
              show [a, b, c] ∈ (if (a.toNat = 50 && (48 ≤ b.toNat && b.toNat ≤ 52) &&
                  isDigitC c) = true then [[a, b, c]] else [])
              rw [if_pos (by simp [h50, hb1, hb52, hdc])]
              exact List.mem_singleton_self [a, b, c]
            · have hb53 : b.toNat = 53 := by omega
              have hc53 : c.toNat ≤ 53 := by omega
              apply List.mem_append_left
              apply List.mem_append_left
              show [a, b, c] ∈ (if (a.toNat = 50 && b.toNat = 53 &&
                  (48 ≤ c.toNat && c.toNat ≤ 53)) = true then [[a, b, c]] else [])
              rw [if_pos (by simp [h50, hb53, hc1, hc53])]
              exact List.mem_singleton_self [a, b, c]
          · have ha49 : a.toNat = 48 ∨ a.toNat = 49 := by omega
            apply List.mem_append_right
            show [a, b, c] ∈ (if ((a.toNat = 48 || a.toNat = 49) && isDigitC b &&
                isDigitC c) = true then [[a, b, c]] else [])
            rcases ha49 with h | h
            · rw [if_pos (by simp [h, hdb, hdc])]
              exact List.mem_singleton_self [a, b, c]
            · rw [if_pos (by simp [h, hdb, hdc])]
              exact List.mem_singleton_self [a, b, c]

theorem drop_of_append {o t s : List Char} (h : o ++ t = s) : s.drop o.length = t := by
  rw [← h]
  exact List.drop_left o t

theorem quadLevel3_sound {a b c r3 m : List Char} (h : quadLevel3 a b c r3 = some m) :
    ∃ d, IsOctet d ∧ d <+: r3 ∧ m = a ++ '.' :: (b ++ '.' :: (c ++ '.' :: d)) := by
  obtain ⟨d, hmem, hd⟩ := findSome?_ex h
  obtain ⟨hoct, hpre⟩ := octetCands_sound r3 d hmem
  injection hd with hd'
  exact ⟨d, hoct, hpre, hd'.symm⟩

theorem quadLevel3_isSome {a b c r3 d : List Char} (hd : d ∈ octetCands r3) :
    (quadLevel3 a b c r3).isSome = true :=
  findSome?_isSome_of_mem hd rfl

theorem quadLevel2_sound {a b r2 m : List Char} (h : quadLevel2 a b r2 = some m) :
    ∃ c r3, IsOctet c ∧ r2 = c ++ '.' :: r3 ∧
      ∃ d, IsOctet d ∧ d <+: r3 ∧ m = a ++ '.' :: (b ++ '.' :: (c ++ '.' :: d)) := by
  obtain ⟨c, hmem, hc⟩ := findSome?_ex h
  obtain ⟨hoct, hpre⟩ := octetCands_sound r2 c hmem
  obtain ⟨t, ht⟩ := hpre
  rw [drop_of_append ht] at hc
  split at hc
  · rename_i r3
    exact ⟨c, r3, hoct, ht.symm, quadLevel3_sound hc⟩
  · exact absurd hc (by simp)

theorem quadLevel2_isSome {a b r2 c r3 d : List Char} (hc : c ∈ octetCands r2)
    (hdrop : r2.drop c.length = '.' :: r3) (hd : d ∈ octetCands r3) :
    (quadLevel2 a b r2).isSome = true := by
  apply findSome?_isSome_of_mem hc
  rw [hdrop]
  exact quadLevel3_isSome hd

theorem quadLevel1_sound {a r1 m : List Char} (h : quadLevel1 a r1 = some m) :
    ∃ b r2, IsOctet b ∧ r1 = b ++ '.' :: r2 ∧
      ∃ c r3, IsOctet c ∧ r2 = c ++ '.' :: r3 ∧
        ∃ d, IsOctet d ∧ d <+: r3 ∧ m = a ++ '.' :: (b ++ '.' :: (c ++ '.' :: d)) := by
  obtain ⟨b, hmem, hb⟩ := findSome?_ex h
  obtain ⟨hoct, hpre⟩ := octetCands_sound r1 b hmem
  obtain ⟨t, ht⟩ := hpre
  rw [drop_of_append ht] at hb
  split at hb
  · rename_i r2
    exact ⟨b, r2, hoct, ht.symm, quadLevel2_sound hb⟩
  · exact absurd hb (by simp)

theorem quadLevel1_isSome {a r1 b r2 c r3 d : List Char} (hb : b ∈ octetCands r1)
    (h1 : r1.drop b.length = '.' :: r2) (hc : c ∈ octetCands r2)
    (h2 : r2.drop c.length = '.' :: r3) (hd : d ∈ octetCands r3) :
    (quadLevel1 a r1).isSome = true := by
  apply findSome?_isSome_of_mem hb
  rw [h1]
  exact quadLevel2_isSome hc h2 hd

theorem matchQuadAt_sound {s m : List Char} (h : matchQuadAt s = some m) :
    StrictQuad m ∧ m <+: s := by
  obtain ⟨a, hamem, ha⟩ := findSome?_ex h
  obtain ⟨haoct, hapre⟩ := octetCands_sound s a hamem
  obtain ⟨t, ht⟩ := hapre
  rw [drop_of_append ht] at ha
  split at ha
  · rename_i r1
    obtain ⟨b, r2, hboct, hr1, c, r3, hcoct, hr2, d, hdoct, hdpre, hm⟩ := quadLevel1_sound ha
    constructor
    · exact ⟨a, b, c, d, haoct, hboct, hcoct, hdoct, hm⟩
    · obtain ⟨u, hu⟩ := hdpre
      refine ⟨u, ?_⟩
      rw [hm, ← ht, hr1, hr2, ← hu]
      simp
  · exact absurd ha (by simp)

theorem matchQuadAt_complete {s m : List Char} (hq : StrictQuad m) (hpre : m <+: s) :
    (matchQuadAt s).isSome = true := by
  obtain ⟨a, b, c, d, ha, hb, hc, hd, rfl⟩ := hq
  obtain ⟨u, hu⟩ := hpre
  have hs : a ++ ('.' :: (b ++ '.' :: (c ++ '.' :: (d ++ u)))) = s := by
    rw [← hu]; simp
  have hamem : a ∈ octetCands s :=
    hs ▸ octetCands_complete ('.' :: (b ++ '.' :: (c ++ '.' :: (d ++ u)))) ha
  apply findSome?_isSome_of_mem hamem
  rw [drop_of_append hs]
  exact quadLevel1_isSome
    (octetCands_complete ('.' :: (c ++ '.' :: (d ++ u))) hb)
    (drop_of_append rfl)
    (octetCands_complete ('.' :: (d ++ u)) hc)
    (drop_of_append rfl)
    (octetCands_complete u hd)

theorem searchQuad_sound : ∀ (s m : List Char), searchQuad s = some m →
    ∃ k, matchQuadAt (s.drop k) = some m ∧
      ∀ j, j < k → matchQuadAt (s.drop j) = none := by
  intro s
  induction s with
  | nil =>
    intro m h
    rw [searchQuad] at h
    exact ⟨0, h, fun j hj => absurd hj (Nat.not_lt_zero j)⟩
  | cons c rest ih =>
    intro m h
    rw [searchQuad] at h
    cases hm : matchQuadAt (c :: rest) with
    | some v =>
      simp only [hm] at h
      injection h with h'
      subst h'
      exact ⟨0, hm, fun j hj => absurd hj (Nat.not_lt_zero j)⟩
    | none =>
      simp only [hm] at h
      obtain ⟨k, h1, h2⟩ := ih m h
      refine ⟨k + 1, h1, ?_⟩
      intro j hj
      cases j with
      | zero => exact hm
      | succ j' => exact h2 j' (by omega)

theorem fetch_of_ne_empty {outcome : Option (List Char)} {r : String}
    (h : fetch outcome = r) (hne : r ≠ "") :
    ∃ content m, outcome = some content ∧ searchQuad content = some m ∧
      r = String.mk m := by
  cases outcome with
  | none =>
    rw [fetch] at h
    exact absurd h.symm hne
  | some content =>
    rw [fetch] at h
    cases hs : searchQuad content with
    | none =>
      simp only [hs] at h
      exact absurd h.symm hne
    | some m =>
      simp only [hs] at h
      by_cases hlen : (String.mk m).length > 0
      · rw [if_pos hlen] at h
        exact ⟨content, m, rfl, hs, h.symm⟩
      · rw [if_neg hlen] at h
        exact absurd h.symm hne

theorem extLoop_all_empty {choice F : Nat → String} :
    ∀ (n i : Nat), 1 ≤ n → (∀ j, i ≤ j → j < i + n → F j = "") →
      extLoop choice F i n = (("", choice (i + n - 1)), n) := by
  intro n
  induction n with
  | zero =>
    intro i h0 _
    exact absurd h0 (by omega)
  | succ n ih =>
    intro i _ hall
    have hFi : F i = "" := hall i (Nat.le_refl i) (by omega)
    by_cases hn : n = 0
    · subst hn
      rw [extLoop_succ_last, hFi]
      rfl
    · rw [extLoop_succ_cont hFi hn]
      rw [ih (i + 1) (by omega) (fun j hj1 hj2 => hall j (by omega) (by omega))]
      have harith : i + 1 + n - 1 = i + (n + 1) - 1 := by omega
      rw [harith]

theorem extLoop_first_success {choice F : Nat → String} :
    ∀ (n i : Nat) (m srv : String) (cnt : Nat),
      extLoop choice F i n = ((m, srv), cnt) → m ≠ "" →
      ∃ j, i ≤ j ∧ j < i + n ∧ m = F j ∧ srv = choice j ∧
        ∀ j', i ≤ j' → j' < j → F j' = "" := by
  intro n
  induction n with
  | zero =>
    intro i m srv cnt h hne
    rw [extLoop] at h
    simp only [Prod.mk.injEq] at h
    exact absurd h.1.1.symm hne
  | succ n ih =>
    intro i m srv cnt h hne
    by_cases hF : F i ≠ ""
    · rw [extLoop_succ_break hF] at h
      simp only [Prod.mk.injEq] at h
      obtain ⟨⟨hm, hsrv⟩, _⟩ := h
      refine ⟨i, Nat.le_refl i, by omega, hm.symm, hsrv.symm, ?_⟩
      intro j' hj1 hj2
      exact absurd hj2 (by omega)
    · have hFi : F i = "" := not_not.mp hF
      by_cases hn : n = 0
      · subst hn
        rw [extLoop_succ_last] at h
        simp only [Prod.mk.injEq] at h
        have : m = "" := by rw [← h.1.1, hFi]
        exact absurd this hne
      · rw [extLoop_succ_cont hFi hn] at h
        have h1 : (extLoop choice F (i + 1) n).1 = (m, srv) := congrArg Prod.fst h
        have heq : extLoop choice F (i + 1) n =
            ((m, srv), (extLoop choice F (i + 1) n).2) := by
          rw [← h1]
        obtain ⟨j, hj1, hj2, hm, hsrv, hempty⟩ := ih (i + 1) m srv _ heq hne
        refine ⟨j, by omega, by omega, hm, hsrv, ?_⟩
        intro j' hji hjj
        rcases Nat.eq_or_lt_of_le hji with rfl | hlt
        · exact hFi
        · exact hempty j' hlt hjj

/-- C10: `get_externalip` never raises on fetch failure; if all of its up to
seven fetch attempts yield `""`, it returns `("", s)` with `s` the last
service picked, so callers of `myip()`/`get_ips()` observe the empty string
instead of an exception; and whenever the returned address is non-empty it
came from the response body of the first successful fetch, as the first
substring of that body matching the strict 0–255 octet-range pattern. -/
theorem getExternalIp_spec :
    ∀ (choice : Nat → String) (outcome : Nat → Option (List Char)),
      ((∀ i, i < 7 → fetch (outcome i) = "") →
        getExternalIp choice (fun i => fetch (outcome i)) = (("", choice 6), 7)) ∧
      (∀ (m srv : String) (cnt : Nat),
        getExternalIp choice (fun i => fetch (outcome i)) = ((m, srv), cnt) →
        m ≠ "" →
        ∃ j, j < 7 ∧ srv = choice j ∧ ∃ content mm, outcome j = some content ∧
          m = String.mk mm ∧ StrictQuad mm ∧ FirstQuadSub content mm) := by
  intro choice outcome
  constructor
  · intro hall
    rw [getExternalIp]
    rw [extLoop_all_empty 7 0 (by omega) (fun j _ hj2 => hall j (by omega))]
  · intro m srv cnt h hne
    obtain ⟨j, _, hj7, hm, hsrv, _⟩ := extLoop_first_success 7 0 m srv cnt h hne
    refine ⟨j, by omega, hsrv, ?_⟩
    obtain ⟨content, mm, hout, hsearch, hr⟩ := fetch_of_ne_empty hm.symm hne
    obtain ⟨k, hk1, hk2⟩ := searchQuad_sound content mm hsearch
    obtain ⟨hquad, hpre⟩ := matchQuadAt_sound hk1
    refine ⟨content, mm, hout, hr, hquad, k, hpre, ?_⟩
    intro j' hj'
    rintro ⟨m', hq', hp'⟩
    have hc := matchQuadAt_complete hq' hp'
    rw [hk2 j' hj'] at hc
    simp at hc

/-- Concrete service-choice oracle for the C10 witness. -/
def choiceW : Nat → String := fun _ => "https://srv"

/-- Concrete network oracle for the C10 witness: the first fetch succeeds
with a page embedding an address, later fetches fail. -/
def outcomeW : Nat → Option (List Char) :=
  fun i => if i = 0 then some ("Your IP is 203.0.113.7 today".data) else none

/-- C10 witness: at the concrete oracles, the returned address is the first
strict-pattern substring of the first response body. -/
theorem getExternalIp_spec_witness :
    ∃ j, j < 7 ∧ "https://srv" = choiceW j ∧
      ∃ content mm, outcomeW j = some content ∧
        "203.0.113.7" = String.mk mm ∧ StrictQuad mm ∧ FirstQuadSub content mm :=
  (getExternalIp_spec choiceW outcomeW).2 "203.0.113.7" "https://srv" 1
    (by decide) (by decide)

/-! ## JSON documents and the server-list cache (ipgetter.py lines 51–132)

`json.load` can return `None`, `bool`, `int`, `float`, `str`, `list` or
`dict`; the embedding represents floats exactly as rationals (Python floats
are a subset of ℚ; NaN/infinity payloads are outside the model) and the
parsed dict as an association list whose keys the parser has already
deduplicated.  Timestamps (`datetime.timestamp`) are rationals; the 90-day
`timedelta` is 7 776 000 seconds (DST shifts of the naive local datetime are
outside the model). -/

/-- A parsed JSON document as `json.load` produces it. -/
inductive JValue where
  | null : JValue
  | jbool : Bool → JValue
  | jint : Int → JValue
  | jfloat : ℚ → JValue
  | jstr : String → JValue
  | jarr : List JValue → JValue
  | jobj : List (String × JValue) → JValue

/-- The Python exceptions the embedded cache code can raise. -/
inductive PyError where
  | cacheExpired : PyError
  | typeError : PyError
  | keyError : PyError
  | attributeError : PyError
deriving DecidableEq

/-- Python `x is None` on a JSON value. -/
def isNull : JValue → Bool
  | .null => true
  | _ => false

/-- Python `elem == key` for a JSON value against a string (JSON values
compare equal to a string only when they are that string). -/
def eqStrKey (key : String) : JValue → Bool
  | .jstr s => s == key
  | _ => false

/-- Python's substring test `needle in hay` on strings: some suffix of the
haystack starts with the needle. -/
def strContains (hay needle : List Char) : Bool :=
  (suffixes hay).any fun t => needle.isPrefixOf t

/-- Python `key in x`: dict key membership, list element membership,
substring test on strings; `TypeError` on any non-container value
(`argument of type ... is not iterable`). -/
def pyContains (key : String) (v : JValue) : Except PyError Bool :=
  match v with
  | .jobj fields => .ok (fields.any fun f => f.1 == key)
  | .jarr elts => .ok (elts.any fun e => eqStrKey key e)
  | .jstr s => .ok (strContains s.data key.data)
  | _ => .error .typeError

/-- Python `x[key]` with a string key: dict lookup (`KeyError` when the key
is absent), `TypeError` on anything that is not a dict (string and list
subscripts require integers). -/
def pySubscript (v : JValue) (key : String) : Except PyError JValue :=
  match v with
  | .jobj fields =>
    match fields.find? (fun f => f.1 == key) with
    | some f => .ok f.2
    | none => .error .keyError
  | _ => .error .typeError

/-- Python `str(x)` on a float, abstracted as a numerator/denominator
rendering.  The code only ever tests its emptiness, and like Python's
`str(float)` it is never empty (it always contains the `/`). -/
def str_float (q : ℚ) : String := Int.repr q.num ++ "/" ++ Nat.repr q.den

/-- `ServerList.from_cache` (ipgetter.py lines 103–132), as a function of
the current timestamp and the cache-file state.  `none` models an absent,
unreadable or unparsable file (the `try`/`except` leaves `cache_content` as
`None`); `some v` a successfully parsed document.  The `or`-chain of the
source is evaluated left to right with short-circuiting, each clause
possibly raising. -/
def from_cache (current_ts : ℚ) (cacheContent : Option JValue) :
    Except PyError (List JValue) :=
  match cacheContent with
  | none => .error .cacheExpired
  | some c =>
    if isNull c then .error .cacheExpired
    else match pyContains "expiry" c with
    | .error e => .error e
    | .ok b1 =>
      if !b1 then .error .cacheExpired
      else match pyContains "expiryDisplay" c with
      | .error e => .error e
      | .ok b2 =>
        if !b2 then .error .cacheExpired
        else match pyContains "servers" c with
        | .error e => .error e
        | .ok b3 =>
          if !b3 then .error .cacheExpired
          else match pySubscript c "expiry" with
          | .error e => .error e
          | .ok ev =>
            if isNull ev then .error .cacheExpired
            else match pySubscript c "expiryDisplay" with
            | .error e => .error e
            | .ok dv =>
              if isNull dv then .error .cacheExpired
              else match pySubscript c "servers" with
              | .error e => .error e
              | .ok sv =>
                if isNull sv then .error .cacheExpired
                else match ev with
                | .jfloat q =>
                  if (str_float q).length == 0 then .error .cacheExpired
                  else match sv with
                  | .jarr xs =>
                    if xs.length == 0 then .error .cacheExpired
                    else if q < current_ts then .error .cacheExpired
                    else .ok xs
                  | _ => .error .cacheExpired
                | _ => .error .cacheExpired

/-- `expiry_date.strftime("%Y-%m-%dT%H:%M:%S")`, abstracted to a rendering
function of the timestamp; the code never inspects it beyond null-ness. -/
def strftimeDisplay (t : ℚ) : String := toString t

/-- `ServerList.to_cache` (ipgetter.py lines 91–101): the JSON document
written over the cache file at time `now` (90 days = 7 776 000 seconds). -/
def to_cache (now : ℚ) (server_list : List JValue) : JValue :=
  let expiry := now + 7776000
  JValue.jobj [("expiry", JValue.jfloat expiry),
               ("expiryDisplay", JValue.jstr (strftimeDisplay expiry)),
               ("servers", JValue.jarr server_list)]

/-- `ServerList.from_file` (ipgetter.py lines 86–89): opens the file in text
mode, so `f.read()` is a `str`, and then calls `.decode("utf-8")` on it; in
Python 3 `str` has no `decode` attribute, so this always raises
`AttributeError` before anything is parsed. -/
def from_file (_file : String) : Except PyError (List JValue) :=
  .error .attributeError

/-- `ServerList.__init__` (ipgetter.py lines 57–66): try the cache; on
`CacheExpired`, load from the override file if one was given, else from the
bundled resource (whose parsed content is the `builtinList` argument), then
write the fresh list back to the cache file.  Returns the in-memory list
paired with the document written to the cache file (`none` when the cache
was valid and the file is untouched); exceptions other than `CacheExpired`
propagate. -/
def serverListInit (now : ℚ) (cacheContent : Option JValue) (file : Option String)
    (builtinList : List JValue) : Except PyError (List JValue × Option JValue) :=
  match from_cache now cacheContent with
  | .ok servers => .ok (servers, none)
  | .error .cacheExpired =>
    match file with
    | some f =>
      match from_file f with
      | .ok l => .ok (l, some (to_cache now l))
      | .error e => .error e
    | none => .ok (builtinList, some (to_cache now builtinList))
  | .error e => .error e

/-- Dict lookup used by the spec-side description. -/
def lookupKey (fields : List (String × JValue)) (key : String) : Option JValue :=
  match fields.find? (fun f => f.1 == key) with
  | some f => some f.2
  | none => none

/-- Spec-side description of `from_cache`, following the amended claim's
words: absent/unparsable/null content is expired; an object is expired
exactly when a field is missing or null, the expiry is not a float, the
servers are not a list or an empty list, or the expiry is strictly before
the current timestamp, and otherwise yields the servers; parsable
non-container documents (numbers, booleans) raise TypeError at the
membership test, as do strings/lists that pass all three membership tests
(at the subscript); strings/lists failing a membership test are expired. -/
def fromCacheSpec (ts : ℚ) (c : Option JValue) : Except PyError (List JValue) :=
  match c with
  | none => .error .cacheExpired
  | some JValue.null => .error .cacheExpired
  | some (JValue.jbool _) => .error .typeError
  | some (JValue.jint _) => .error .typeError
  | some (JValue.jfloat _) => .error .typeError
  | some (JValue.jstr s) =>
    if strContains s.data "expiry".data && strContains s.data "expiryDisplay".data &&
        strContains s.data "servers".data then .error .typeError
    else .error .cacheExpired
  | some (JValue.jarr xs) =>
    if xs.any (eqStrKey "expiry") && xs.any (eqStrKey "expiryDisplay") &&
        xs.any (eqStrKey "servers") then .error .typeError
    else .error .cacheExpired
  | some (JValue.jobj fields) =>
    match lookupKey fields "expiry", lookupKey fields "expiryDisplay",
        lookupKey fields "servers" with
    | some ev, some dv, some sv =>
      if isNull ev || isNull dv || isNull sv then .error .cacheExpired
      else
        match ev, sv with
        | JValue.jfloat q, JValue.jarr xs =>
          if xs.isEmpty || q < ts then .error .cacheExpired else .ok xs
        | _, _ => .error .cacheExpired
    | _, _, _ => .error .cacheExpired

theorem str_float_length_pos (q : ℚ) : 1 ≤ (str_float q).length := by
  rw [str_float, String.length_append, String.length_append]
  have h : ("/" : String).length = 1 := rfl
  omega

theorem str_float_beq_zero (q : ℚ) : ((str_float q).length == 0) = false := by
  have h := str_float_length_pos q
  cases hbeq : (str_float q).length == 0 with
  | false => rfl
  | true => exact absurd (beq_iff_eq.mp hbeq) (by omega)

theorem any_eq_find?_isSome {α : Type} (p : α → Bool) :
    ∀ (l : List α), l.any p = (l.find? p).isSome := by
  intro l
  induction l with
  | nil => rfl
  | cons x xs ih =>
    rw [List.any_cons, List.find?]
    cases hx : p x with
    | true => rfl
    | false => simpa using ih

theorem length_beq_zero_eq_isEmpty {α : Type} (xs : List α) :
    (xs.length == 0) = xs.isEmpty := by
  cases xs <;> rfl

theorem from_cache_eq_spec_aux : ∀ (ts : ℚ) (c : Option JValue),
    from_cache ts c = fromCacheSpec ts c := by
  intro ts c
  cases c with
  | none => rfl
  | some v =>
    cases v with
    | null => rfl
    | jbool b => rfl
    | jint n => rfl
    | jfloat q => rfl
    | jstr s =>
      cases h1 : strContains s.data ("expiry".data) with
      | false => simp [from_cache, fromCacheSpec, pyContains, isNull, h1]
      | true =>
        cases h2 : strContains s.data ("expiryDisplay".data) with
        | false => simp [from_cache, fromCacheSpec, pyContains, isNull, h1, h2]
        | true =>
          cases h3 : strContains s.data ("servers".data) with
          | false => simp [from_cache, fromCacheSpec, pyContains, isNull, h1, h2, h3]
          | true =>
            simp [from_cache, fromCacheSpec, pyContains, pySubscript, isNull,
              h1, h2, h3]
    | jarr xs =>
      cases h1 : xs.any (fun e => eqStrKey "expiry" e) with
      | false => simp [from_cache, fromCacheSpec, pyContains, isNull, h1]
      | true =>
        cases h2 : xs.any (fun e => eqStrKey "expiryDisplay" e) with
        | false => simp [from_cache, fromCacheSpec, pyContains, isNull, h1, h2]
        | true =>
          cases h3 : xs.any (fun e => eqStrKey "servers" e) with
          | false => simp [from_cache, fromCacheSpec, pyContains, isNull, h1, h2, h3]
          | true =>
            simp [from_cache, fromCacheSpec, pyContains, pySubscript, isNull,
              h1, h2, h3]
    | jobj fields =>
      have e1 := any_eq_find?_isSome (fun f => f.1 == "expiry") fields
      have e2 := any_eq_find?_isSome (fun f => f.1 == "expiryDisplay") fields
      have e3 := any_eq_find?_isSome (fun f => f.1 == "servers") fields
      cases hf1 : fields.find? (fun f => f.1 == "expiry") with
      | none =>
        rw [hf1] at e1
        simp [from_cache, fromCacheSpec, pyContains, lookupKey, isNull, hf1, e1]
      | some p1 =>
        rw [hf1] at e1
        cases hf2 : fields.find? (fun f => f.1 == "expiryDisplay") with
        | none =>
          rw [hf2] at e2
          simp [from_cache, fromCacheSpec, pyContains, lookupKey, isNull,
            hf1, hf2, e1, e2]
        | some p2 =>
          rw [hf2] at e2
          cases hf3 : fields.find? (fun f => f.1 == "servers") with
          | none =>
            rw [hf3] at e3
            simp [from_cache, fromCacheSpec, pyContains, lookupKey, isNull,
              hf1, hf2, hf3, e1, e2, e3]
          | some p3 =>
            rw [hf3] at e3
            cases hn1 : isNull p1.2 with
            | true =>
              simp [from_cache, fromCacheSpec, pyContains, pySubscript, lookupKey,
                hf1, hf2, hf3, e1, e2, e3, hn1]
            | false =>
              cases hn2 : isNull p2.2 with
              | true =>
                simp [from_cache, fromCacheSpec, pyContains, pySubscript, lookupKey,
                  hf1, hf2, hf3, e1, e2, e3, hn1, hn2]
              | false =>
                cases hn3 : isNull p3.2 with
                | true =>
                  simp [from_cache, fromCacheSpec, pyContains, pySubscript, lookupKey,
                    hf1, hf2, hf3, e1, e2, e3, hn1, hn2, hn3]
                | false =>
                  cases hp1 : p1.2 with
                  | jfloat q =>
                    cases hp3 : p3.2 with
                    | jarr ys =>
                      by_cases hq : q < ts
                      · simp [from_cache, fromCacheSpec, pyContains, pySubscript,
                          lookupKey, isNull, hf1, hf2, hf3, e1, e2, e3, hn1, hn2, hn3,
                          hp1, hp3, str_float_beq_zero, length_beq_zero_eq_isEmpty, hq]
                      · cases hys : ys.isEmpty with
                        | true =>
                          simp [from_cache, fromCacheSpec, pyContains, pySubscript,
                            lookupKey, isNull, hf1, hf2, hf3, e1, e2, e3, hn1, hn2, hn3,
                            hp1, hp3, str_float_beq_zero, length_beq_zero_eq_isEmpty,
                            hq, hys]
                        | false =>
                          simp [from_cache, fromCacheSpec, pyContains, pySubscript,
                            lookupKey, isNull, hf1, hf2, hf3, e1, e2, e3, hn1, hn2, hn3,
                            hp1, hp3, str_float_beq_zero, length_beq_zero_eq_isEmpty,
                            hq, hys]
                    | null =>
                      simp [from_cache, fromCacheSpec, pyContains, pySubscript,
                        lookupKey, isNull, hf1, hf2, hf3, e1, e2, e3, hn1, hn2, hn3,
                        hp1, hp3, str_float_beq_zero]
                    | jbool b =>
                      simp [from_cache, fromCacheSpec, pyContains, pySubscript,
                        lookupKey, isNull, hf1, hf2, hf3, e1, e2, e3, hn1, hn2, hn3,
                        hp1, hp3, str_float_beq_zero]
                    | jint n =>
                      simp [from_cache, fromCacheSpec, pyContains, pySubscript,
                        lookupKey, isNull, hf1, hf2, hf3, e1, e2, e3, hn1, hn2, hn3,
                        hp1, hp3, str_float_beq_zero]
                    | jfloat q2 =>
                      simp [from_cache, fromCacheSpec, pyContains, pySubscript,
                        lookupKey, isNull, hf1, hf2, hf3, e1, e2, e3, hn1, hn2, hn3,
                        hp1, hp3, str_float_beq_zero]
                    | jstr s2 =>
                      simp [from_cache, fromCacheSpec, pyContains, pySubscript,
                        lookupKey, isNull, hf1, hf2, hf3, e1, e2, e3, hn1, hn2, hn3,
                        hp1, hp3, str_float_beq_zero]
                    | jobj g2 =>
                      simp [from_cache, fromCacheSpec, pyContains, pySubscript,
                        lookupKey, isNull, hf1, hf2, hf3, e1, e2, e3, hn1, hn2, hn3,
                        hp1, hp3, str_float_beq_zero]
                  | null =>
                    simp [from_cache, fromCacheSpec, pyContains, pySubscript,
                      lookupKey, isNull, hf1, hf2, hf3, e1, e2, e3, hn1, hn2, hn3, hp1]
                  | jbool b =>
                    simp [from_cache, fromCacheSpec, pyContains, pySubscript,
                      lookupKey, isNull, hf1, hf2, hf3, e1, e2, e3, hn1, hn2, hn3, hp1]
                  | jint n =>
                    simp [from_cache, fromCacheSpec, pyContains, pySubscript,
                      lookupKey, isNull, hf1, hf2, hf3, e1, e2, e3, hn1, hn2, hn3, hp1]
                  | jstr s2 =>
                    simp [from_cache, fromCacheSpec, pyContains, pySubscript,
                      lookupKey, isNull, hf1, hf2, hf3, e1, e2, e3, hn1, hn2, hn3, hp1]
                  | jarr ys =>
                    simp [from_cache, fromCacheSpec, pyContains, pySubscript,
                      lookupKey, isNull, hf1, hf2, hf3, e1, e2, e3, hn1, hn2, hn3, hp1]
                  | jobj g =>
                    simp [from_cache, fromCacheSpec, pyContains, pySubscript,
                      lookupKey, isNull, hf1, hf2, hf3, e1, e2, e3, hn1, hn2, hn3, hp1]

/-- C5 (amended): `from_cache` equals its spec-side description — absent,
unreadable, unparsable or JSON-`null` content is `CacheExpired`; a JSON
object is expired exactly when one of the three fields is missing or null,
the expiry is not a float, the servers are not a list or an empty list, or
the expiry is strictly before the current timestamp (equality is accepted
as valid), and otherwise the servers list is returned; but a parsable
non-container document (number, boolean) raises `TypeError` at the
membership test, as do strings/lists passing all three membership tests (at
the subscript); strings/lists failing a membership test are expired. -/
theorem from_cache_characterization : ∀ (ts : ℚ) (c : Option JValue),
    from_cache ts c = fromCacheSpec ts c :=
  from_cache_eq_spec_aux

/-- C5 counterexample: a cache file whose JSON document is the number `42`
raises `TypeError` (`"expiry" not in 42` is not a membership test Python can
run), not `CacheExpired`; and a cache file whose float expiry exactly equals
the current timestamp — not strictly in the future — is returned as valid,
not treated as expired. -/
theorem from_cache_counterexample :
    from_cache 0 (some (JValue.jint 42)) = Except.error PyError.typeError ∧
    from_cache 100 (some (JValue.jobj
      [("expiry", JValue.jfloat 100),
       ("expiryDisplay", JValue.jstr "2026-01-01T00:00:00"),
       ("servers", JValue.jarr [JValue.jstr "https://a.example/ip"])])) =
      Except.ok [JValue.jstr "https://a.example/ip"] := by
  constructor
  · rfl
  · rfl

/-- C7: writing a non-empty server list with `to_cache` at time `t` and
loading it back with `from_cache` at any time `t'` up to the expiry (in
particular immediately, `t' = t`) yields exactly the same endpoints in the
same order, and the snapshot is judged non-expired (the expiry stored is
exactly `t + 7776000`). -/
theorem to_cache_from_cache_roundtrip :
    ∀ (t t' : ℚ) (servers : List JValue), servers ≠ [] → t' ≤ t + 7776000 →
      from_cache t' (some (to_cache t servers)) = Except.ok servers := by
  intro t t' servers hne hle
  rw [from_cache_eq_spec_aux]
  show (if servers.isEmpty || decide (t + 7776000 < t') then
      Except.error PyError.cacheExpired else Except.ok servers) = Except.ok servers
  have h1 : servers.isEmpty = false := by
    cases servers with
    | nil => exact absurd rfl hne
    | cons x xs => rfl
  have h2 : decide (t + 7776000 < t') = false :=
    decide_eq_false (not_lt.mpr hle)
  rw [h1, h2]
  rfl

/-- C7 witness: a concrete one-element list round-trips at `t' = t = 0`. -/
theorem to_cache_from_cache_roundtrip_witness :
    from_cache 0 (some (to_cache 0 [JValue.jstr "https://a.example/ip"])) =
      Except.ok [JValue.jstr "https://a.example/ip"] :=
  to_cache_from_cache_roundtrip 0 0 [JValue.jstr "https://a.example/ip"]
    (List.cons_ne_nil _ _) (by norm_num)

/-- C8 (amended): when the cache is expired and no override file is given,
`ServerList.__init__` takes the bundled list, wraps it in a snapshot whose
expiry is now + 90 days (7 776 000 s) with `expiryDisplay` its rendering,
and writes it back over the cache file; with an override file given,
`from_file` always raises `AttributeError` (Python 3: `str` has no
`.decode`), so no fresh list is obtained from the file and nothing is
persisted. -/
theorem serverListInit_refresh :
    ∀ (now : ℚ) (cacheContent : Option JValue) (builtinList : List JValue),
      from_cache now cacheContent = Except.error PyError.cacheExpired →
      serverListInit now cacheContent none builtinList =
        Except.ok (builtinList, some (to_cache now builtinList)) ∧
      (∀ f, serverListInit now cacheContent (some f) builtinList =
        Except.error PyError.attributeError) ∧
      to_cache now builtinList = JValue.jobj
        [("expiry", JValue.jfloat (now + 7776000)),
         ("expiryDisplay", JValue.jstr (strftimeDisplay (now + 7776000))),
         ("servers", JValue.jarr builtinList)] := by
  intro now cc bl h
  refine ⟨?_, ?_, rfl⟩
  · rw [serverListInit, h]
  · intro f
    rw [serverListInit, h]
    rfl

/-- C8 witness: with an empty (absent) cache and no override file, the
bundled list is adopted and persisted with the 90-day expiry. -/
theorem serverListInit_refresh_witness :
    serverListInit 0 none none [JValue.jstr "https://a.example/ip"] =
      Except.ok ([JValue.jstr "https://a.example/ip"],
        some (to_cache 0 [JValue.jstr "https://a.example/ip"])) ∧
    to_cache 0 [JValue.jstr "https://a.example/ip"] = JValue.jobj
      [("expiry", JValue.jfloat (0 + 7776000)),
       ("expiryDisplay", JValue.jstr (strftimeDisplay (0 + 7776000))),
       ("servers", JValue.jarr [JValue.jstr "https://a.example/ip"])] :=
  let h := serverListInit_refresh 0 none [JValue.jstr "https://a.example/ip"] rfl
  ⟨h.1, h.2.2⟩

/-- C8 counterexample: with the cache expired and an override file given,
`ServerList.__init__` raises `AttributeError` inside `from_file`, so no
fresh list is obtained from the override file and no snapshot is persisted,
contradicting the claimed override-file refresh path. -/
theorem serverListInit_override_counterexample :
    serverListInit 0 none (some "servers.json")
        [JValue.jstr "https://b.example/ip"] =
      Except.error PyError.attributeError ∧
    serverListInit 0 none (some "servers.json")
        [JValue.jstr "https://b.example/ip"] ≠
      Except.ok ([JValue.jstr "https://b.example/ip"],
        some (to_cache 0 [JValue.jstr "https://b.example/ip"])) := by
  constructor
  · rfl
  · intro hcontra
    rw [show serverListInit 0 none (some "servers.json")
        [JValue.jstr "https://b.example/ip"] =
        Except.error PyError.attributeError from rfl] at hcontra
    exact Except.noConfusion hcontra

/-! ## `IPgetter.get_local_ip` (ipgetter.py lines 157–168)

Python source:
```
s = socket.socket(socket.AF_INET, socket.SOCK_DGRAM)
try:
    s.connect(("10.255.255.255", 1))
    ip = s.getsockname()[0]
except Exception:
    ip = "127.0.0.1"
finally:
    s.close()
return ip
```
The two operations inside the `try` block are modelled by oracles that may
raise; `except Exception` catches either failure; the `finally` closes the
socket on both the normal and the exceptional path, modelled as a Boolean
in the result. -/

/-- Outcomes of the socket operations inside `get_local_ip`'s `try` block. -/
structure ProbeWorld where
  connect : Except Unit Unit
  sockname : Except Unit String

/-- `IPgetter.get_local_ip`: returns the probed address (or the loopback on
any failure) paired with whether the socket was closed. -/
def get_local_ip (w : ProbeWorld) : String × Bool :=
  let tryBlock : Except Unit String :=
    match w.connect with
    | .ok _ => w.sockname
    | .error e => .error e
  let ip := match tryBlock with
    | .ok v => v
    | .error _ => "127.0.0.1"
  (ip, true)

/-- C9: `get_local_ip` never raises (it is a total function into an address
string); on any failure of the socket association or the address read-back
it returns the loopback `"127.0.0.1"`; and the socket is closed on every
path, also the successful one. -/
theorem get_local_ip_spec :
    ∀ (w : ProbeWorld),
      (get_local_ip w).2 = true ∧
      ((w.connect = Except.error () ∨ w.sockname = Except.error ()) →
        (get_local_ip w).1 = "127.0.0.1") := by
  intro w
  constructor
  · rfl
  · intro hfail
    rcases hfail with h | h
    · simp [get_local_ip, h]
    · cases hc : w.connect with
      | error e => simp [get_local_ip, hc]
      | ok u => simp [get_local_ip, hc, h]

/-- C9 witness: with both socket operations failing, the probe still closes
the socket and returns the loopback address. -/
theorem get_local_ip_witness :
    (get_local_ip ⟨Except.error (), Except.error ()⟩).2 = true ∧
    (get_local_ip ⟨Except.error (), Except.error ()⟩).1 = "127.0.0.1" :=
  let h := get_local_ip_spec ⟨Except.error (), Except.error ()⟩
  ⟨h.1, h.2 (Or.inl rfl)⟩

end Ipwatch
